import Mathlib

/-!
Shallow embedding of the Aegis-Flow core subsystems (hybrid key exchange,
framed AEAD stream codec, carbon-aware router, green-wait scheduler,
lifecycle supervisor) together with theorems settling the specification
claims about them.

Bytes are modelled as lists of naturals (each byte < 256 where it matters);
Rust `u64`/`u32` arithmetic is modelled on `Nat` with explicit `% 2^64` /
`% 2^32` at the points where the machine type wraps; Rust `f64` quantities
that only ever hold exact decimal measurements are modelled as `ℚ`;
fallible operations return `Option`.
-/

namespace AegisFlow

/-- Byte strings (`Vec<u8>` / `&[u8]`). -/
abbrev Bytes := List Nat

/-- Big-endian byte encoding of a `u64` value (`u64::to_be_bytes`). -/
def u64BeBytes (c : Nat) : Bytes :=
  [c / 2 ^ 56 % 256, c / 2 ^ 48 % 256, c / 2 ^ 40 % 256, c / 2 ^ 32 % 256,
   c / 2 ^ 24 % 256, c / 2 ^ 16 % 256, c / 2 ^ 8 % 256, c % 256]

/-- Big-endian byte encoding of a `u32` value (`BufMut::put_u32`). -/
def u32BeBytes (c : Nat) : Bytes :=
  [c / 2 ^ 24 % 256, c / 2 ^ 16 % 256, c / 2 ^ 8 % 256, c % 256]

namespace Crypto

/-! ## `crates/crypto/src/cipher.rs` -/

/-- `CipherAlgorithm` from cipher.rs: AES-256-GCM or ChaCha20-Poly1305. -/
inductive CipherAlgorithm
  | aes256Gcm
  | chaCha20Poly1305
deriving DecidableEq, Repr

/-- `Cipher` from cipher.rs: a 32-byte key, the configured algorithm, and the
`AtomicU64` nonce counter (its `u64` value kept below `2 ^ 64`). -/
structure Cipher where
  key : Bytes
  algorithm : CipherAlgorithm
  nonceCounter : Nat
deriving DecidableEq, Repr

/-- `Cipher::new`: stores the key and initializes the nonce counter to 1. -/
def Cipher.new (key : Bytes) (algorithm : CipherAlgorithm) : Cipher :=
  { key := key, algorithm := algorithm, nonceCounter := 1 }

/-- `Cipher::create_nonce`: a 12-byte nonce, four zero bytes followed by the
big-endian `u64` counter value. -/
def createNonce (counter : Nat) : Bytes :=
  [0, 0, 0, 0] ++ u64BeBytes (counter % 2 ^ 64)

section AeadPrimitives

/- The AEAD primitives (`aes_gcm::Aes256Gcm`, `chacha20poly1305::ChaCha20Poly1305`)
are external library code; the embedding is parameterized by them.  An
encryption primitive maps key, nonce and plaintext to ciphertext-with-tag;
a decryption primitive returns `none` on tag mismatch. -/
variable (aesGcmEncrypt chaChaEncrypt : Bytes → Bytes → Bytes → Bytes)
variable (aesGcmDecrypt chaChaDecrypt : Bytes → Bytes → Bytes → Option Bytes)

/-- `Cipher::encrypt` (cipher.rs lines 90-117): `fetch_add` the counter
(wrapping `u64` semantics), build the nonce from the pre-increment value,
encrypt under the configured algorithm, and return the nonce prepended to
the ciphertext, together with the post-state.  (The Rust `Result` error arms
can only fire for a key slice whose length differs from 32 or an AEAD-internal
failure, neither of which is reachable from the typed 32-byte key.) -/
def Cipher.encrypt (c : Cipher) (plaintext : Bytes) : Bytes × Cipher :=
  let nonceValue := c.nonceCounter % 2 ^ 64
  let next := { c with nonceCounter := (c.nonceCounter + 1) % 2 ^ 64 }
  let nonce := createNonce nonceValue
  let ciphertext :=
    match c.algorithm with
    | .aes256Gcm => aesGcmEncrypt c.key nonce plaintext
    | .chaCha20Poly1305 => chaChaEncrypt c.key nonce plaintext
  (nonce ++ ciphertext, next)

/-- `Cipher::decrypt` (cipher.rs lines 120-145): reject inputs shorter than
12 bytes, split off the 12-byte nonce, and AEAD-decrypt the remainder. -/
def Cipher.decrypt (c : Cipher) (ciphertext : Bytes) : Option Bytes :=
  if ciphertext.length < 12 then none
  else
    let nonce := ciphertext.take 12
    let data := ciphertext.drop 12
    match c.algorithm with
    | .aes256Gcm => aesGcmDecrypt c.key nonce data
    | .chaCha20Poly1305 => chaChaDecrypt c.key nonce data

end AeadPrimitives

/-! ## `crates/crypto/src/stream.rs` -/

/-- `U32_SIZE` from stream.rs. -/
def u32Size : Nat := 4

/-- `NONCE_SIZE` from stream.rs. -/
def nonceSize : Nat := 12

/-- `FRAME_OVERHEAD = U32_SIZE + NONCE_SIZE + 16` from stream.rs. -/
def frameOverhead : Nat := u32Size + nonceSize + 16

/-- `MAX_FRAME_SIZE = 64 * 1024` from stream.rs. -/
def maxFrameSize : Nat := 64 * 1024

/-- The length validation performed by `EncryptedStream::poll_read`
(stream.rs lines 117-129): a parsed `frame_len` is rejected with
`InvalidData` when `frame_len < NONCE_SIZE + 16` ("Frame too short") or
`frame_len > MAX_FRAME_SIZE + FRAME_OVERHEAD` ("Frame too large"), and
accepted otherwise. -/
def frameLenValid (frameLen : Nat) : Bool :=
  if frameLen < nonceSize + 16 then false
  else if frameLen > maxFrameSize + frameOverhead then false
  else true

/-- The frame-producing step of `EncryptedStream::poll_write`
(stream.rs lines 198-220): an empty caller buffer produces no frame;
otherwise the whole buffer is AEAD-encrypted under one random nonce and
exactly one frame `u32_be(frame_len) ++ nonce ++ ciphertext_tag` with
`frame_len = NONCE_SIZE + ciphertext_tag.len()` is appended to the write
buffer.  Parameterized by the AES-256-GCM primitive and the random nonce. -/
def pollWriteFrames (aesGcmEncrypt : Bytes → Bytes → Bytes → Bytes)
    (key nonce buf : Bytes) : List Bytes :=
  if buf = [] then []
  else
    let ciphertextTag := aesGcmEncrypt key nonce buf
    let frameLen := nonceSize + ciphertextTag.length
    [u32BeBytes frameLen ++ nonce ++ ciphertextTag]

/-! ## `crates/crypto/src/hybrid_kex.rs`

The X25519 and ML-KEM-768 primitives (`x25519_dalek`, `pqcrypto_mlkem`) are
external library code; the embedding is parameterized by them.  Key and
ciphertext components are carried at the library's typed level (the
`from_bytes` error arms in the source fire only for malformed serialized
inputs, which well-typed components never produce), while the shared-secret
byte buffers that `combine` and `derive_key` manipulate are modelled
byte-exactly. -/

namespace HybridKex

/-- `HybridSharedSecret::combine` (hybrid_kex.rs lines 62-71): a 64-byte
buffer whose first 32 bytes are the X25519 shared secret and whose next
`min(mlkem_secret.len(), 32)` bytes are the ML-KEM shared secret, the
remainder staying zero. -/
def combine (x25519Secret mlkemSecret : Bytes) : Bytes :=
  let mlkemLen := min mlkemSecret.length 32
  x25519Secret ++ (mlkemSecret.take mlkemLen ++ List.replicate (32 - mlkemLen) 0)

/-- `HybridSharedSecret::derive_key` (hybrid_kex.rs lines 80-88): the
"simple XOR-based derivation for MVP" — byte `i` of the key is
`inner[i] XOR inner[i + 32]` for `i < 32`. -/
def deriveKey (inner : Bytes) : Bytes :=
  (List.range 32).map (fun i => Nat.xor (inner.getD i 0) (inner.getD (i + 32) 0))

section Primitives

variable {DhSec DhPub KemPk KemSk KemCt KemSeed KemCoins : Type}

/-- `HybridPublicKey`: X25519 public component and ML-KEM public key. -/
structure HybridPublicKey (DhPub KemPk : Type) where
  x25519 : DhPub
  mlkem : KemPk

/-- `HybridSecretKey`: X25519 static secret and ML-KEM secret key. -/
structure HybridSecretKey (DhSec KemSk : Type) where
  x25519 : DhSec
  mlkem : KemSk

/-- `HybridCiphertext`: ephemeral X25519 public key and ML-KEM ciphertext. -/
structure HybridCiphertext (DhPub KemCt : Type) where
  x25519Ephemeral : DhPub
  mlkemCiphertext : KemCt

variable (dhPub : DhSec → DhPub) (dh : DhSec → DhPub → Bytes)
variable (kemKeypair : KemSeed → KemPk × KemSk)
variable (kemEncap : KemPk → KemCoins → Bytes × KemCt)
variable (kemDecap : KemCt → KemSk → Bytes)

/-- `HybridKeyExchange::generate_keypair` (hybrid_kex.rs lines 124-146):
sample an X25519 static secret and an ML-KEM keypair (the RNG draws are the
`xSeed` / `kSeed` arguments) and assemble the hybrid public and secret
keys. -/
def generateKeypair (xSeed : DhSec) (kSeed : KemSeed) :
    HybridPublicKey DhPub KemPk × HybridSecretKey DhSec KemSk :=
  let kp := kemKeypair kSeed
  ({ x25519 := dhPub xSeed, mlkem := kp.1 }, { x25519 := xSeed, mlkem := kp.2 })

/-- `HybridKeyExchange::encapsulate` (hybrid_kex.rs lines 150-178): sample
an ephemeral X25519 secret (`eph`; the ML-KEM RNG draw is `coins`), compute
the Diffie-Hellman share with the peer's X25519 component, ML-KEM
encapsulate to the peer's ML-KEM component, and return the hybrid
ciphertext together with the combined shared secret. -/
def encapsulate (eph : DhSec) (coins : KemCoins)
    (peerPk : HybridPublicKey DhPub KemPk) :
    HybridCiphertext DhPub KemCt × Bytes :=
  let x25519Shared := dh eph peerPk.x25519
  let enc := kemEncap peerPk.mlkem coins
  ({ x25519Ephemeral := dhPub eph, mlkemCiphertext := enc.2 },
   combine x25519Shared enc.1)

/-- `HybridKeyExchange::decapsulate` (hybrid_kex.rs lines 182-206): compute
the Diffie-Hellman share of the static X25519 secret with the ciphertext's
ephemeral public key, ML-KEM decapsulate, and combine. -/
def decapsulate (ct : HybridCiphertext DhPub KemCt)
    (sk : HybridSecretKey DhSec KemSk) : Bytes :=
  combine (dh sk.x25519 ct.x25519Ephemeral) (kemDecap ct.mlkemCiphertext sk.mlkem)

end Primitives

end HybridKex

end Crypto

namespace Proxy

/-! ## `crates/proxy/src/carbon_router.rs`

The carbon intensities, scores and weight factors are `f64` in the source;
they are modelled as `ℚ` (the values involved are exact decimal
measurements, and only order comparisons and elementary arithmetic are
performed on them).  The `HashMap<String, RegionScore>` of region scores is
modelled as an association list in the map's iteration order; `HashMap`
iteration order is arbitrary (seeded per map instance), so statements about
the router hold for, or are refuted by, particular iteration orders. -/

/-- `RegionScore` from carbon_router.rs. -/
structure RegionScore where
  regionId : String
  carbonIntensity : ℚ
  score : ℚ
  recommended : Bool
deriving DecidableEq, Repr

/-- `CarbonRouterConfig` from carbon_router.rs. -/
structure CarbonRouterConfig where
  enabled : Bool
  threshold : ℚ
  maxIntensity : ℚ
  preferRenewable : Bool
  preferredRegions : List String
  carbonWeight : ℚ
deriving DecidableEq, Repr

/-- `CarbonRouterConfig::default`. -/
def CarbonRouterConfig.default : CarbonRouterConfig :=
  { enabled := false, threshold := 200, maxIntensity := 500,
    preferRenewable := true, preferredRegions := [], carbonWeight := 1 / 2 }

/-- Rust `Iterator::min_by` over region-score entries, comparing by
`carbon_intensity` via `partial_cmp(..).unwrap_or(Equal)`: a left fold that
replaces the accumulator exactly when the new element is strictly smaller,
so the first of several equally-minimal entries (in iteration order) is
kept. -/
def minByIntensity : List (String × RegionScore) → Option (String × RegionScore)
  | [] => none
  | x :: xs =>
      some (xs.foldl (fun acc y =>
        if y.2.carbonIntensity < acc.2.carbonIntensity then y else acc) x)

/-- `CarbonRouter::select_greenest_region` (carbon_router.rs lines 158-175):
`None` for an empty score map; otherwise filter to entries with
`carbon_intensity ≤ max_intensity`, take the minimum by intensity, and
return its key. -/
def selectGreenestRegion (cfg : CarbonRouterConfig)
    (scores : List (String × RegionScore)) : Option String :=
  if scores = [] then none
  else
    (minByIntensity
      (scores.filter (fun p => p.2.carbonIntensity ≤ cfg.maxIntensity))).map
      (fun p => p.1)

/-- Rust `f64 as u32` saturating cast for the exact rationals in scope:
negative values go to 0, values at or above `2 ^ 32` to `2 ^ 32 - 1`,
and the rest truncate toward zero. -/
def ratAsU32 (q : ℚ) : Nat :=
  if q < 0 then 0 else min q.floor.toNat (2 ^ 32 - 1)

/-- `CarbonRouter::get_routing_weight` (carbon_router.rs lines 206-221):
with a cached score, high-carbon regions get weight 0 and the rest get
`max(1, (1 - score) * 100 * carbon_weight as u32)`; with no entry for the
region the constant default weight 50 is returned. -/
def getRoutingWeight (cfg : CarbonRouterConfig)
    (scores : List (String × RegionScore)) (regionId : String) : Nat :=
  match scores.lookup regionId with
  | some score =>
      if score.carbonIntensity > cfg.maxIntensity then 0
      else
        let inverted := 1 - score.score
        let weight := ratAsU32 (inverted * 100 * cfg.carbonWeight)
        max weight 1
  | none => 50

/-! ## `crates/proxy/src/green_wait.rs` -/

/-- `Region` from the `aegis-energy` crate (equality is by `id`; only `id`
is consulted by the scheduler). -/
structure Region where
  id : String
  name : String
  latitude : Option ℚ
  longitude : Option ℚ
deriving DecidableEq, Repr

/-- `JobPriority` from green_wait.rs. -/
inductive JobPriority
  | critical
  | high
  | normal
  | low
  | background
deriving DecidableEq, Repr

/-- `JobPriority::max_wait_duration`, in seconds. -/
def JobPriority.maxWaitSecs : JobPriority → Nat
  | .critical => 0
  | .high => 5 * 60
  | .normal => 30 * 60
  | .low => 2 * 60 * 60
  | .background => 24 * 60 * 60

/-- `DeferredJob` from green_wait.rs (`submitted_at : Instant` becomes a
nonnegative number of seconds on an abstract clock). -/
structure DeferredJob where
  id : String
  priority : JobPriority
  region : Region
  submittedAt : Nat
  carbonThreshold : ℚ
  payload : Bytes
deriving DecidableEq, Repr

/-- `GreenWaitConfig` from green_wait.rs. -/
structure GreenWaitConfig where
  enabled : Bool
  defaultThreshold : ℚ
  checkIntervalSecs : Nat
  maxQueueSize : Nat
deriving DecidableEq, Repr

/-- `ScheduleResult` from green_wait.rs. -/
inductive ScheduleResult
  | executedImmediately
  | queued (position : Nat)
  | queueFull
  | disabled
deriving DecidableEq, Repr

/-- `GreenWaitScheduler` state: configuration, the `VecDeque` job queue
(front of the deque at the head of the list), and the `HashMap` of current
region intensities as an association list. -/
structure GreenWaitScheduler where
  config : GreenWaitConfig
  queue : List DeferredJob
  regionIntensity : List (String × ℚ)
deriving DecidableEq, Repr

/-- `GreenWaitScheduler::get_region_intensity`: map lookup by region id. -/
def getRegionIntensity (s : GreenWaitScheduler) (regionId : String) : Option ℚ :=
  s.regionIntensity.lookup regionId

/-- The queueing tail of `GreenWaitScheduler::submit` (green_wait.rs lines
192-203): reject when the queue already holds `max_queue_size` jobs,
otherwise push the job at the back and report its position (the queue length
before insertion). -/
def submitToQueue (s : GreenWaitScheduler) (job : DeferredJob) :
    ScheduleResult × GreenWaitScheduler :=
  if s.queue.length ≥ s.config.maxQueueSize then (.queueFull, s)
  else (.queued s.queue.length, { s with queue := s.queue ++ [job] })

/-- `GreenWaitScheduler::submit` (green_wait.rs lines 167-204): `Disabled`
when the scheduler is disabled; `ExecutedImmediately` for `Critical`
priority; `ExecutedImmediately` when the current intensity for the job's
region is known and at most the job's carbon threshold; otherwise queue. -/
def submit (s : GreenWaitScheduler) (job : DeferredJob) :
    ScheduleResult × GreenWaitScheduler :=
  if s.config.enabled = false then (.disabled, s)
  else if job.priority = .critical then (.executedImmediately, s)
  else
    match getRegionIntensity s job.region.id with
    | some intensity =>
        if intensity ≤ job.carbonThreshold then (.executedImmediately, s)
        else submitToQueue s job
    | none => submitToQueue s job

/-! ## `crates/proxy/src/lifecycle.rs` -/

/-- `LifecycleManager::connection_started`: `fetch_add(1)` on the
`AtomicU64` connection counter, with wrapping `u64` semantics. -/
def connectionStarted (c : Nat) : Nat := (c + 1) % 2 ^ 64

/-- `LifecycleManager::connection_finished`: `fetch_sub(1)` on the
`AtomicU64` connection counter, i.e. wrapping subtraction of 1 modulo
`2 ^ 64` (only the debug log line applies `saturating_sub`; the stored
counter wraps). -/
def connectionFinished (c : Nat) : Nat := (c + (2 ^ 64 - 1)) % 2 ^ 64

/-- A connection-accounting event. -/
inductive ConnOp
  | started
  | finished
deriving DecidableEq, Repr

/-- Apply a sequence of connection events to the counter. -/
def applyConnOps (c : Nat) (ops : List ConnOp) : Nat :=
  ops.foldl (fun acc op =>
    match op with
    | .started => connectionStarted acc
    | .finished => connectionFinished acc) c

/-- Number of `connection_started` calls in a trace. -/
def countStarted : List ConnOp → Nat
  | [] => 0
  | .started :: rest => countStarted rest + 1
  | .finished :: rest => countStarted rest

/-- Number of `connection_finished` calls in a trace. -/
def countFinished : List ConnOp → Nat
  | [] => 0
  | .started :: rest => countFinished rest
  | .finished :: rest => countFinished rest + 1

end Proxy

/-! ## Reference definition: HKDF-SHA-256 with info `"aegis-session-v1"`

The specification states that the session-key derivation MUST be HKDF-SHA-256
with info `"aegis-session-v1"` and empty salt.  The definitions below follow
the published standards (FIPS 180-4 SHA-256, RFC 2104 HMAC, RFC 5869 HKDF);
they are the spec-side reference against which the source's
`HybridSharedSecret::derive_key` is compared.  All functions are executable
and were checked against the standard test vectors (SHA-256 of the empty
string and of `"abc"`, HMAC-SHA-256 RFC 4231 test case 2). -/

namespace Sha256

/-- Right rotation of a 32-bit word. -/
def rotr (n x : Nat) : Nat := ((x >>> n) ||| (x <<< (32 - n))) % 2 ^ 32

/-- The 64 SHA-256 round constants (FIPS 180-4 section 4.2.2), written in
decimal. -/
def kConst : List Nat :=
  [1116352408, 1899447441, 3049323471, 3921009573, 961987163, 1508970993,
   2453635748, 2870763221, 3624381080, 310598401, 607225278, 1426881987,
   1925078388, 2162078206, 2614888103, 3248222580, 3835390401, 4022224774,
   264347078, 604807628, 770255983, 1249150122, 1555081692, 1996064986,
   2554220882, 2821834349, 2952996808, 3210313671, 3336571891, 3584528711,
   113926993, 338241895, 666307205, 773529912, 1294757372, 1396182291,
   1695183700, 1986661051, 2177026350, 2456956037, 2730485921, 2820302411,
   3259730800, 3345764771, 3516065817, 3600352804, 4094571909, 275423344,
   430227734, 506948616, 659060556, 883997877, 958139571, 1322822218,
   1537002063, 1747873779, 1955562222, 2024104815, 2227730452, 2361852424,
   2428436474, 2756734187, 3204031479, 3329325298]

/-- The SHA-256 initial hash value (FIPS 180-4 section 5.3.3), written in
decimal. -/
def hInit : List Nat :=
  [1779033703, 3144134277, 1013904242, 2773480762,
   1359893119, 2600822924, 528734635, 1541459225]

/-- SHA-256 message padding (FIPS 180-4 section 5.1.1). -/
def pad (msg : Bytes) : Bytes :=
  let L := msg.length
  let k := (64 - (L + 9) % 64) % 64
  msg ++ [0x80] ++ List.replicate k 0 ++ u64BeBytes (8 * L)

/-- Group bytes into big-endian 32-bit words. -/
def bytesToWords : Bytes → List Nat
  | a :: b :: c :: d :: rest => (((a * 256 + b) * 256 + c) * 256 + d) :: bytesToWords rest
  | _ => []

/-- SHA-256 small sigma 0. -/
def ssig0 (x : Nat) : Nat := (rotr 7 x) ^^^ (rotr 18 x) ^^^ (x >>> 3)

/-- SHA-256 small sigma 1. -/
def ssig1 (x : Nat) : Nat := (rotr 17 x) ^^^ (rotr 19 x) ^^^ (x >>> 10)

/-- SHA-256 big sigma 0. -/
def bsig0 (x : Nat) : Nat := (rotr 2 x) ^^^ (rotr 13 x) ^^^ (rotr 22 x)

/-- SHA-256 big sigma 1. -/
def bsig1 (x : Nat) : Nat := (rotr 6 x) ^^^ (rotr 11 x) ^^^ (rotr 25 x)

/-- Expand a 16-word block into the 64-word message schedule. -/
def buildSchedule (block : List Nat) : List Nat :=
  (List.range 64).foldl (fun ws t =>
    if t < 16 then ws ++ [block.getD t 0]
    else
      ws ++ [(ssig1 (ws.getD (t - 2) 0) + ws.getD (t - 7) 0 +
              ssig0 (ws.getD (t - 15) 0) + ws.getD (t - 16) 0) % 2 ^ 32]) []

/-- The SHA-256 compression function on one message schedule. -/
def compress (h0 : List Nat) (ws : List Nat) : List Nat :=
  let st := (List.range 64).foldl (fun st t =>
    match st with
    | [a, b, c, d, e, f, g, h] =>
        let t1 := (h + bsig1 e + ((e &&& f) ^^^ ((e ^^^ 0xffffffff) &&& g)) +
                   kConst.getD t 0 + ws.getD t 0) % 2 ^ 32
        let t2 := (bsig0 a + ((a &&& b) ^^^ (a &&& c) ^^^ (b &&& c))) % 2 ^ 32
        [(t1 + t2) % 2 ^ 32, a, b, c, (d + t1) % 2 ^ 32, e, f, g]
    | other => other) h0
  (h0.zip st).map (fun p => (p.1 + p.2) % 2 ^ 32)

/-- SHA-256 of a byte string. -/
def sha256 (msg : Bytes) : Bytes :=
  let ws := bytesToWords (pad msg)
  let nBlocks := ws.length / 16
  let final := (List.range nBlocks).foldl (fun st b =>
    compress st (buildSchedule ((List.range 16).map (fun i => ws.getD (16 * b + i) 0)))) hInit
  final.flatMap (fun w => [w / 2 ^ 24 % 256, w / 2 ^ 16 % 256, w / 2 ^ 8 % 256, w % 256])

/-- HMAC-SHA-256 (RFC 2104). -/
def hmacSha256 (key msg : Bytes) : Bytes :=
  let k0 :=
    if key.length > 64 then sha256 key ++ List.replicate 32 0
    else key ++ List.replicate (64 - key.length) 0
  let ipad := k0.map (fun b => b ^^^ 0x36)
  let opad := k0.map (fun b => b ^^^ 0x5c)
  sha256 (opad ++ sha256 (ipad ++ msg))

/-- HKDF-SHA-256 (RFC 5869) with empty salt (which the RFC sets to 32 zero
bytes) and a 32-byte output: `HKDF-Expand(HKDF-Extract(0^32, ikm), info, 32)`,
which is `HMAC(HMAC(0^32, ikm), info || 0x01)`. -/
def hkdfSha256Okm32 (ikm info : Bytes) : Bytes :=
  hmacSha256 (hmacSha256 (List.replicate 32 0) ikm) (info ++ [1])

/-- The bytes of the fixed domain-separation label `"aegis-session-v1"`. -/
def sessionInfo : Bytes :=
  [97, 101, 103, 105, 115, 45, 115, 101, 115, 115, 105, 111, 110, 45, 118, 49]

end Sha256

/-! ## Concrete instantiations used by witnesses

The theorems about the cipher, the stream codec and the hybrid key exchange
are parameterized by the external cryptographic primitives together with
their standard correctness properties.  The following small concrete
primitives satisfy those properties and let the witnesses evaluate the
embedding on closed inputs. -/

namespace Toy

/-- A toy AEAD encryption: append a 16-byte tag. -/
def aeadEncrypt (_key _nonce m : Bytes) : Bytes := m ++ List.replicate 16 0

/-- A toy AEAD decryption: strip the 16-byte tag. -/
def aeadDecrypt (_key _nonce c : Bytes) : Option Bytes :=
  some (c.take (c.length - 16))

/-- A toy Diffie-Hellman public-key map (scalars stand for themselves). -/
def dhPub (a : Nat) : Nat := a

/-- A toy Diffie-Hellman shared secret: 32 copies of `a * b mod 256`. -/
def dh (a b : Nat) : Bytes := List.replicate 32 (a * b % 256)

/-- A toy KEM keypair: the secret key equals the public key. -/
def kemKeypair (s : Nat) : Nat × Nat := (s, s)

/-- A toy KEM encapsulation: shared secret `pk + coins mod 256`, ciphertext
carrying the coins. -/
def kemEncap (pk coins : Nat) : Bytes × Nat :=
  (List.replicate 32 ((pk + coins) % 256), coins)

/-- A toy KEM decapsulation matching `kemEncap`. -/
def kemDecap (ct sk : Nat) : Bytes := List.replicate 32 ((sk + ct) % 256)

/-- A concrete green-wait scheduler state: enabled, empty queue, no cached
intensities, queue capacity 2. -/
def gwState : Proxy.GreenWaitScheduler :=
  { config := { enabled := true, defaultThreshold := 150,
                checkIntervalSecs := 60, maxQueueSize := 2 },
    queue := [], regionIntensity := [] }

/-- A concrete non-critical job for the scheduler witness. -/
def gwJob : Proxy.DeferredJob :=
  { id := "job-1", priority := .normal,
    region := { id := "us-west", name := "US West",
                latitude := none, longitude := none },
    submittedAt := 0, carbonThreshold := 100, payload := [1, 2, 3] }

/-- Two region scores with equal carbon intensity, keyed `"b"` before
`"a"` in map iteration order. -/
def tieScoreB : Proxy.RegionScore :=
  { regionId := "b", carbonIntensity := 10, score := 1 / 50, recommended := true }

/-- The second of the two tied region scores. -/
def tieScoreA : Proxy.RegionScore :=
  { regionId := "a", carbonIntensity := 10, score := 1 / 50, recommended := true }

end Toy

end AegisFlow

/-! ## Theorems settling the claims -/

open AegisFlow AegisFlow.Crypto AegisFlow.Crypto.HybridKex AegisFlow.Proxy AegisFlow.Sha256

set_option maxRecDepth 10000 in
/-- C2: the claim that the session-key derivation from the 64-byte composed
secret equals HKDF-SHA-256 with info `"aegis-session-v1"` and empty salt
fails on the code: `HybridSharedSecret::derive_key` XOR-folds the two
32-byte halves, so the all-zero composed secret derives the all-zero key,
while the HKDF-SHA-256 reference value for that secret differs. -/
theorem claim_C2_derive_key_is_not_hkdf :
    deriveKey (List.replicate 64 0) = List.replicate 32 0 ∧
    deriveKey (List.replicate 64 0) ≠
      hkdfSha256Okm32 (List.replicate 64 0) sessionInfo := by
  constructor
  · decide
  · intro h
    have h2 : hkdfSha256Okm32 (List.replicate 64 0) sessionInfo =
        List.replicate 32 0 := by
      rw [← h]; decide
    revert h2; decide

/-- C5: the claim's upper length bound of `12 + 65536 + 16 = 65564` does not
match the code: `poll_read` accepts `frame_len = 65565` (indeed anything up
to `MAX_FRAME_SIZE + FRAME_OVERHEAD = 65568`, `FRAME_OVERHEAD` counting the
4-byte length prefix as well), so a length above the claimed bound passes
the validation instead of failing with a protocol error. -/
theorem claim_C5_counterexample :
    frameLenValid 65565 = true ∧ 12 + 65536 + 16 < 65565 := by decide

/-- C5 (amended): for every received frame, the length validation in
`poll_read` fails exactly when `len < 28` or `len > 65568`
(`= MAX_FRAME_SIZE + FRAME_OVERHEAD`, the overhead including the 4-byte
length prefix), and every `len` inside those bounds passes it. -/
theorem claim_C5_length_bounds (len : Nat) :
    frameLenValid len = true ↔ 28 ≤ len ∧ len ≤ 65568 := by
  simp only [frameLenValid, nonceSize, maxFrameSize, frameOverhead, u32Size]
  split
  · simp_all
  · split <;> simp_all

/-- C5 witness: the amended bounds evaluated at the two endpoints. -/
theorem claim_C5_length_bounds_witness :
    (frameLenValid 28 = true ↔ 28 ≤ 28 ∧ 28 ≤ 65568) ∧
    (frameLenValid 65569 = true ↔ 28 ≤ 65569 ∧ 65569 ≤ 65568) :=
  ⟨claim_C5_length_bounds 28, claim_C5_length_bounds 65569⟩

/-- C10: for every region id without an entry in the router's score map,
`get_routing_weight` returns the constant default weight 50, independently
of the configuration. -/
theorem claim_C10_default_weight (cfg : CarbonRouterConfig)
    (scores : List (String × RegionScore)) (regionId : String)
    (h : scores.lookup regionId = none) :
    getRoutingWeight cfg scores regionId = 50 := by
  unfold getRoutingWeight
  rw [h]

/-- C10 witness: the default weight on an empty score map. -/
theorem claim_C10_default_weight_witness :
    ([] : List (String × RegionScore)).lookup "us-west" = none ∧
    getRoutingWeight CarbonRouterConfig.default [] "us-west" = 50 :=
  ⟨rfl, claim_C10_default_weight CarbonRouterConfig.default [] "us-west" rfl⟩

/-- C6: the nonce under the monotonic policy is `0x00000000 || counter_be64`
with the counter starting at 1 and incrementing per encryption — but the
fail-on-wrap part of the claim fails on the code: `Cipher::encrypt` uses a
wrapping `fetch_add`, so encrypting at counter `2^64 - 1` still produces a
frame, the counter wraps to 0, and two encryptions later the cipher is back
at a fresh cipher's initial counter, reusing nonces.  For any AEAD
primitives, key and message: the fresh counter is 1, the nonce layout is as
claimed, the counter always advances by 1 modulo `2^64`, the encryption at
`2^64 - 1` yields the usual frame with the wrapped state, and the state two
encryptions after the wrap coincides with the fresh-cipher counter. -/
theorem claim_C6_counter_wrap (aesE chaE : Bytes → Bytes → Bytes → Bytes)
    (key m : Bytes) :
    (Cipher.new key .aes256Gcm).nonceCounter = 1 ∧
    createNonce 1 = [0, 0, 0, 0, 0, 0, 0, 0, 0, 0, 0, 1] ∧
    (∀ c : Cipher,
      ((c.encrypt aesE chaE m).2).nonceCounter = (c.nonceCounter + 1) % 2 ^ 64) ∧
    ((({ key := key, algorithm := .aes256Gcm, nonceCounter := 2 ^ 64 - 1 } :
        Cipher).encrypt aesE chaE m).1 =
      createNonce (2 ^ 64 - 1) ++
        aesE key (createNonce (2 ^ 64 - 1)) m) ∧
    ((({ key := key, algorithm := .aes256Gcm, nonceCounter := 2 ^ 64 - 1 } :
        Cipher).encrypt aesE chaE m).2).nonceCounter = 0 ∧
    ((((({ key := key, algorithm := .aes256Gcm, nonceCounter := 2 ^ 64 - 1 } :
        Cipher).encrypt aesE chaE m).2).encrypt aesE chaE m).2).nonceCounter =
      (Cipher.new key .aes256Gcm).nonceCounter := by
  refine ⟨rfl, by decide, fun c => rfl, ?_, ?_, ?_⟩
  · unfold Cipher.encrypt createNonce
    norm_num
  · show (2 ^ 64 - 1 + 1) % 2 ^ 64 = 0
    norm_num
  · show ((2 ^ 64 - 1 + 1) % 2 ^ 64 + 1) % 2 ^ 64 = 1
    norm_num

/-- C6 witness: the conjunction instantiated with the toy AEAD, a concrete
key and a concrete message. -/
theorem claim_C6_counter_wrap_witness :
    (Cipher.new [7] .aes256Gcm).nonceCounter = 1 ∧
    createNonce 1 = [0, 0, 0, 0, 0, 0, 0, 0, 0, 0, 0, 1] ∧
    (∀ c : Cipher,
      ((c.encrypt Toy.aeadEncrypt Toy.aeadEncrypt [9]).2).nonceCounter =
        (c.nonceCounter + 1) % 2 ^ 64) ∧
    ((({ key := [7], algorithm := .aes256Gcm, nonceCounter := 2 ^ 64 - 1 } :
        Cipher).encrypt Toy.aeadEncrypt Toy.aeadEncrypt [9]).1 =
      createNonce (2 ^ 64 - 1) ++
        Toy.aeadEncrypt [7] (createNonce (2 ^ 64 - 1)) [9]) ∧
    ((({ key := [7], algorithm := .aes256Gcm, nonceCounter := 2 ^ 64 - 1 } :
        Cipher).encrypt Toy.aeadEncrypt Toy.aeadEncrypt [9]).2).nonceCounter = 0 ∧
    ((((({ key := [7], algorithm := .aes256Gcm, nonceCounter := 2 ^ 64 - 1 } :
        Cipher).encrypt Toy.aeadEncrypt Toy.aeadEncrypt [9]).2).encrypt
          Toy.aeadEncrypt Toy.aeadEncrypt [9]).2).nonceCounter =
      (Cipher.new [7] .aes256Gcm).nonceCounter :=
  claim_C6_counter_wrap Toy.aeadEncrypt Toy.aeadEncrypt [7] [9]

/-- C3: for every cipher state (hence every 32-byte session key and either
algorithm) and every plaintext, decrypting the output of `Cipher::encrypt`
with the same cipher yields the plaintext back, given that the underlying
AEAD primitives decrypt what they encrypt. -/
theorem claim_C3_cipher_roundtrip
    (aesE chaE : Bytes → Bytes → Bytes → Bytes)
    (aesD chaD : Bytes → Bytes → Bytes → Option Bytes)
    (hAes : ∀ k n m, aesD k n (aesE k n m) = some m)
    (hCha : ∀ k n m, chaD k n (chaE k n m) = some m)
    (c : Cipher) (m : Bytes) :
    ((c.encrypt aesE chaE m).2).decrypt aesD chaD ((c.encrypt aesE chaE m).1) =
      some m := by
  cases halg : c.algorithm <;>
    simp [Cipher.encrypt, Cipher.decrypt, halg, createNonce, u64BeBytes,
      hAes, hCha]

/-- C3 witness: the round trip evaluated on a fresh AES-256-GCM cipher with
the toy AEAD and a concrete two-byte plaintext. -/
theorem claim_C3_cipher_roundtrip_witness :
    (((Cipher.new (List.replicate 32 0x42) .aes256Gcm).encrypt
        Toy.aeadEncrypt Toy.aeadEncrypt [72, 105]).2).decrypt
      Toy.aeadDecrypt Toy.aeadDecrypt
      (((Cipher.new (List.replicate 32 0x42) .aes256Gcm).encrypt
          Toy.aeadEncrypt Toy.aeadEncrypt [72, 105]).1) = some [72, 105] :=
  claim_C3_cipher_roundtrip Toy.aeadEncrypt Toy.aeadEncrypt
    Toy.aeadDecrypt Toy.aeadDecrypt
    (by intro k n m; simp [Toy.aeadEncrypt, Toy.aeadDecrypt])
    (by intro k n m; simp [Toy.aeadEncrypt, Toy.aeadDecrypt])
    (Cipher.new (List.replicate 32 0x42) .aes256Gcm) [72, 105]

/-- C4: the claim that a plaintext is split into chunks of at most 64 KiB,
each becoming one frame (so a 1,000,000-byte plaintext gives at least 16
frames), fails on the code: `poll_write` encrypts the whole caller buffer
as a single frame, so a 1,000,000-byte write produces exactly one frame
whose length field is `12 + 1,000,000 + 16 = 1,000,028` — which the
stream's own `poll_read` length validation rejects as too large.  The AEAD
primitive is abstract, assumed only to add the 16-byte tag. -/
theorem claim_C4_no_chunking (aesE : Bytes → Bytes → Bytes → Bytes)
    (hLen : ∀ k n m, (aesE k n m).length = m.length + 16) :
    (pollWriteFrames aesE (List.replicate 32 0x42) (List.replicate 12 0)
        (List.replicate 1000000 0)).length = 1 ∧
    nonceSize + (aesE (List.replicate 32 0x42) (List.replicate 12 0)
        (List.replicate 1000000 0)).length = 1000028 ∧
    frameLenValid 1000028 = false := by
  refine ⟨?_, ?_, by decide⟩
  · have hne : (List.replicate 1000000 0 : Bytes) ≠ [] :=
      List.length_pos.mp (by rw [List.length_replicate]; norm_num)
    unfold pollWriteFrames
    rw [if_neg hne]
    rfl
  · rw [hLen, List.length_replicate]
    decide

/-- C4 witness: the same evaluation with the toy AEAD primitive. -/
theorem claim_C4_no_chunking_witness :
    (pollWriteFrames Toy.aeadEncrypt (List.replicate 32 0x42)
        (List.replicate 12 0) (List.replicate 1000000 0)).length = 1 ∧
    nonceSize + (Toy.aeadEncrypt (List.replicate 32 0x42)
        (List.replicate 12 0) (List.replicate 1000000 0)).length = 1000028 ∧
    frameLenValid 1000028 = false :=
  claim_C4_no_chunking Toy.aeadEncrypt
    (by intro k n m; simp [Toy.aeadEncrypt])

/-- Helper for C9: starting from counter `c`, a trace in which every prefix
has at most `c` more finishes than starts, and whose total starts keep the
counter below `2^64`, leaves the counter at `c + starts - finishes`. -/
theorem applyConnOps_eq_of_balanced (ops : List ConnOp) : ∀ c : Nat,
    (∀ n, countFinished (ops.take n) ≤ c + countStarted (ops.take n)) →
    c + countStarted ops < 2 ^ 64 →
    applyConnOps c ops = c + countStarted ops - countFinished ops := by
  induction ops with
  | nil => intro c _ _; simp [applyConnOps, countStarted, countFinished]
  | cons op rest ih =>
    intro c hbal hbound
    cases op with
    | started =>
        have hcs : countStarted (.started :: rest) = countStarted rest + 1 := rfl
        have hcf : countFinished (.started :: rest) = countFinished rest := rfl
        have hb : c + 1 + countStarted rest < 2 ^ 64 := by
          rw [hcs] at hbound; omega
        have hstep : applyConnOps c (.started :: rest) =
            applyConnOps (c + 1) rest := by
          have : connectionStarted c = c + 1 := by
            unfold connectionStarted; omega
          simp [applyConnOps, this]
        rw [hstep, ih (c + 1) ?_ hb, hcs, hcf]
        · omega
        · intro n
          have := hbal (n + 1)
          simp [List.take_succ_cons, countStarted, countFinished] at this
          omega
    | finished =>
        have hcs : countStarted (.finished :: rest) = countStarted rest := rfl
        have hcf : countFinished (.finished :: rest) = countFinished rest + 1 := rfl
        have h1 : 1 ≤ c := by
          have := hbal 1
          simpa [List.take_succ_cons, countStarted, countFinished] using this
        have hc64 : c < 2 ^ 64 := by rw [hcs] at hbound; omega
        have hstep : applyConnOps c (.finished :: rest) =
            applyConnOps (c - 1) rest := by
          have : connectionFinished c = c - 1 := by
            unfold connectionFinished; omega
          simp [applyConnOps, this]
        have hrest : ∀ n, countFinished (rest.take n) ≤
            c - 1 + countStarted (rest.take n) := by
          intro n
          have := hbal (n + 1)
          simp [List.take_succ_cons, countStarted, countFinished] at this
          omega
        rw [hstep, ih (c - 1) hrest (by rw [hcs] at hbound; omega), hcs, hcf]
        omega

/-- C9: `connection_finished` on a zero counter wraps to
`2^64 - 1 = 18446744073709551615` (the `AtomicU64` `fetch_sub` wraps rather
than saturating), and for traces in which no prefix has more finishes than
starts (and the counter never overflows), the counter reported by
`active_connections` equals starts minus finishes. -/
theorem claim_C9_connection_counter (ops : List ConnOp)
    (hbal : ∀ n, countFinished (ops.take n) ≤ countStarted (ops.take n))
    (hbound : countStarted ops < 2 ^ 64) :
    connectionFinished 0 = 18446744073709551615 ∧
    applyConnOps 0 ops = countStarted ops - countFinished ops := by
  constructor
  · norm_num [connectionFinished]
  · have := applyConnOps_eq_of_balanced ops 0 (by simpa using hbal)
      (by simpa using hbound)
    simpa using this

/-- C9 witness: two starts followed by one finish leave the counter at 1,
and the underflow value is as stated. -/
theorem claim_C9_connection_counter_witness :
    connectionFinished 0 = 18446744073709551615 ∧
    applyConnOps 0 [.started, .started, .finished] =
      countStarted [ConnOp.started, .started, .finished] -
        countFinished [ConnOp.started, .started, .finished] :=
  claim_C9_connection_counter [.started, .started, .finished]
    (by
      intro n
      have h : n < 3 ∨ 3 ≤ n := by omega
      rcases h with h | h
      · interval_cases n <;> decide
      · rw [List.take_of_length_le (by simpa using h)]; decide)
    (by decide)

/-- C1: for every keypair produced by `generate_keypair` and any RNG draws
inside `encapsulate` (the ephemeral X25519 secret and the KEM coins),
`decapsulate` of the resulting ciphertext under the secret key returns the
same composed secret as `encapsulate`, and the session keys both sides
derive from it are equal — given the Diffie-Hellman shared-secret symmetry
of X25519 and the standard KEM correctness of ML-KEM-768. -/
theorem claim_C1_key_exchange_agreement
    {DhSec DhPub KemPk KemSk KemCt KemSeed KemCoins : Type}
    (dhPub : DhSec → DhPub) (dh : DhSec → DhPub → Bytes)
    (kemKeypair : KemSeed → KemPk × KemSk)
    (kemEncap : KemPk → KemCoins → Bytes × KemCt)
    (kemDecap : KemCt → KemSk → Bytes)
    (hdh : ∀ a b, dh a (dhPub b) = dh b (dhPub a))
    (hkem : ∀ seed coins,
      kemDecap (kemEncap (kemKeypair seed).1 coins).2 (kemKeypair seed).2 =
        (kemEncap (kemKeypair seed).1 coins).1)
    (xSeed : DhSec) (kSeed : KemSeed) (eph : DhSec) (coins : KemCoins) :
    decapsulate dh kemDecap
        (encapsulate dhPub dh kemEncap eph coins
          (generateKeypair dhPub kemKeypair xSeed kSeed).1).1
        (generateKeypair dhPub kemKeypair xSeed kSeed).2 =
      (encapsulate dhPub dh kemEncap eph coins
          (generateKeypair dhPub kemKeypair xSeed kSeed).1).2 ∧
    deriveKey (decapsulate dh kemDecap
        (encapsulate dhPub dh kemEncap eph coins
          (generateKeypair dhPub kemKeypair xSeed kSeed).1).1
        (generateKeypair dhPub kemKeypair xSeed kSeed).2) =
      deriveKey ((encapsulate dhPub dh kemEncap eph coins
          (generateKeypair dhPub kemKeypair xSeed kSeed).1).2) := by
  have h : decapsulate dh kemDecap
      (encapsulate dhPub dh kemEncap eph coins
        (generateKeypair dhPub kemKeypair xSeed kSeed).1).1
      (generateKeypair dhPub kemKeypair xSeed kSeed).2 =
      (encapsulate dhPub dh kemEncap eph coins
        (generateKeypair dhPub kemKeypair xSeed kSeed).1).2 := by
    simp only [decapsulate, encapsulate, generateKeypair]
    rw [hdh, hkem]
  exact ⟨h, by rw [h]⟩

/-- C1 witness: the agreement evaluated at the commuting toy primitives
with concrete RNG draws. -/
theorem claim_C1_key_exchange_agreement_witness :
    decapsulate Toy.dh Toy.kemDecap
        (encapsulate Toy.dhPub Toy.dh Toy.kemEncap 11 13
          (generateKeypair Toy.dhPub Toy.kemKeypair 5 7).1).1
        (generateKeypair Toy.dhPub Toy.kemKeypair 5 7).2 =
      (encapsulate Toy.dhPub Toy.dh Toy.kemEncap 11 13
          (generateKeypair Toy.dhPub Toy.kemKeypair 5 7).1).2 ∧
    deriveKey (decapsulate Toy.dh Toy.kemDecap
        (encapsulate Toy.dhPub Toy.dh Toy.kemEncap 11 13
          (generateKeypair Toy.dhPub Toy.kemKeypair 5 7).1).1
        (generateKeypair Toy.dhPub Toy.kemKeypair 5 7).2) =
      deriveKey ((encapsulate Toy.dhPub Toy.dh Toy.kemEncap 11 13
          (generateKeypair Toy.dhPub Toy.kemKeypair 5 7).1).2) :=
  claim_C1_key_exchange_agreement Toy.dhPub Toy.dh Toy.kemKeypair
    Toy.kemEncap Toy.kemDecap
    (by intro a b; simp [Toy.dh, Toy.dhPub, Nat.mul_comm])
    (fun s c => rfl) 5 7 11 13

/-- Helper for C7: the fold inside `min_by` returns one of the elements it
visited. -/
theorem minByFold_mem (xs : List (String × RegionScore)) :
    ∀ x : String × RegionScore,
      xs.foldl (fun acc y =>
        if y.2.carbonIntensity < acc.2.carbonIntensity then y else acc) x ∈
        x :: xs := by
  induction xs with
  | nil => intro x; simp
  | cons z zs ih =>
      intro x
      rw [List.foldl_cons]
      rcases List.mem_cons.mp
          (ih (if z.2.carbonIntensity < x.2.carbonIntensity then z else x)) with
        h1 | h1
      · rw [h1]
        split
        · exact List.mem_cons_of_mem _ (List.mem_cons_self _ _)
        · exact List.mem_cons_self _ _
      · exact List.mem_cons_of_mem _ (List.mem_cons_of_mem _ h1)

/-- Helper for C7: the fold inside `min_by` returns an element whose carbon
intensity is minimal among all visited elements. -/
theorem minByFold_le (xs : List (String × RegionScore)) :
    ∀ x y : String × RegionScore, y ∈ x :: xs →
      (xs.foldl (fun acc y =>
        if y.2.carbonIntensity < acc.2.carbonIntensity then y else acc)
          x).2.carbonIntensity ≤ y.2.carbonIntensity := by
  induction xs with
  | nil =>
      intro x y hy
      rw [List.mem_singleton] at hy
      subst hy
      simp
  | cons z zs ih =>
      intro x y hy
      rw [List.foldl_cons]
      have hwx : (if z.2.carbonIntensity < x.2.carbonIntensity then z
          else x).2.carbonIntensity ≤ x.2.carbonIntensity := by
        split
        · linarith
        · exact le_refl _
      have hwz : (if z.2.carbonIntensity < x.2.carbonIntensity then z
          else x).2.carbonIntensity ≤ z.2.carbonIntensity := by
        split
        · exact le_refl _
        · linarith [not_lt.mp (by assumption :
            ¬ z.2.carbonIntensity < x.2.carbonIntensity)]
      have hself := ih (if z.2.carbonIntensity < x.2.carbonIntensity then z else x)
        (if z.2.carbonIntensity < x.2.carbonIntensity then z else x)
        (List.mem_cons_self _ _)
      rcases List.mem_cons.mp hy with h1 | h1
      · subst h1
        exact le_trans hself hwx
      · rcases List.mem_cons.mp h1 with h2 | h2
        · subst h2
          exact le_trans hself hwz
        · exact ih _ y (List.mem_cons_of_mem _ h2)

/-- C7: the claim that ties between equal intensities are broken by the
lexicographically smallest region id fails on the code:
`select_greenest_region` iterates a `HashMap`, whose iteration order is
arbitrary, and `Iterator::min_by` keeps the first of equally-minimal
entries in that order.  With iteration order `"b"` before `"a"` and equal
intensities, the code returns `"b"`, not the lexicographically smaller
`"a"`. -/
theorem claim_C7_counterexample :
    selectGreenestRegion CarbonRouterConfig.default
        [("b", Toy.tieScoreB), ("a", Toy.tieScoreA)] = some "b" ∧
    selectGreenestRegion CarbonRouterConfig.default
        [("b", Toy.tieScoreB), ("a", Toy.tieScoreA)] ≠ some "a" := by
  constructor <;> decide

/-- C7 (amended): for every score map (in any iteration order),
`select_greenest_region` returns no selection exactly when no region has
intensity at most `max_intensity`, and any returned region id belongs to a
qualifying entry of minimal carbon intensity among the qualifying entries —
with ties resolved by iteration order, not lexicographically. -/
theorem claim_C7_greenest_minimal (cfg : CarbonRouterConfig)
    (scores : List (String × RegionScore)) :
    (selectGreenestRegion cfg scores = none ↔
      ∀ p ∈ scores, ¬ p.2.carbonIntensity ≤ cfg.maxIntensity) ∧
    (∀ rid, selectGreenestRegion cfg scores = some rid →
      ∃ s, (rid, s) ∈ scores ∧ s.carbonIntensity ≤ cfg.maxIntensity ∧
        ∀ p ∈ scores, p.2.carbonIntensity ≤ cfg.maxIntensity →
          s.carbonIntensity ≤ p.2.carbonIntensity) := by
  by_cases hs : scores = []
  · subst hs
    constructor
    · simp [selectGreenestRegion]
    · intro rid h
      simp [selectGreenestRegion] at h
  · unfold selectGreenestRegion
    rw [if_neg hs]
    constructor
    · rw [Option.map_eq_none']
      cases hf : scores.filter
          (fun p => p.2.carbonIntensity ≤ cfg.maxIntensity) with
      | nil =>
          simp only [minByIntensity]
          constructor
          · intro _ p hp
            have := List.filter_eq_nil_iff.mp hf p hp
            simpa using this
          · intro _; trivial
      | cons x xs =>
          simp only [minByIntensity]
          constructor
          · intro h; exact absurd h (by simp)
          · intro hall
            have hx : x ∈ scores.filter
                (fun p => p.2.carbonIntensity ≤ cfg.maxIntensity) := by
              rw [hf]; exact List.mem_cons_self _ _
            have hmem := List.mem_filter.mp hx
            exact absurd (by simpa using hmem.2) (hall x hmem.1)
    · intro rid h
      rcases Option.map_eq_some'.mp h with ⟨q, hq, hq1⟩
      cases hf : scores.filter
          (fun p => p.2.carbonIntensity ≤ cfg.maxIntensity) with
      | nil => rw [hf] at hq; simp [minByIntensity] at hq
      | cons x xs =>
          rw [hf] at hq
          simp only [minByIntensity, Option.some.injEq] at hq
          have hmem : q ∈ x :: xs := hq ▸ minByFold_mem xs x
          rw [← hf] at hmem
          have hmf := List.mem_filter.mp hmem
          refine ⟨q.2, ?_, by simpa using hmf.2, ?_⟩
          · rw [← hq1]
            exact hmf.1
          · intro p hp hple
            have hpf : p ∈ x :: xs := by
              rw [← hf]
              exact List.mem_filter.mpr ⟨hp, by simpa using hple⟩
            have := minByFold_le xs x p hpf
            rw [hq] at this
            exact this

/-- C7 witness: the amended statement evaluated on the two-entry tied map,
extracting the minimal qualifying entry for the returned id `"b"`. -/
theorem claim_C7_greenest_minimal_witness :
    ∃ s, (("b", s) ∈ [("b", Toy.tieScoreB), ("a", Toy.tieScoreA)]) ∧
      s.carbonIntensity ≤ CarbonRouterConfig.default.maxIntensity ∧
      ∀ p ∈ [("b", Toy.tieScoreB), ("a", Toy.tieScoreA)],
        p.2.carbonIntensity ≤ CarbonRouterConfig.default.maxIntensity →
          s.carbonIntensity ≤ p.2.carbonIntensity :=
  (claim_C7_greenest_minimal CarbonRouterConfig.default
    [("b", Toy.tieScoreB), ("a", Toy.tieScoreA)]).2 "b" (by decide)

/-- C8: `submit` returns `Disabled` when the scheduler is disabled;
otherwise `ExecutedImmediately` for `Critical` priority; otherwise
`ExecutedImmediately` when the current intensity for the job's region is
known and at most the job's carbon threshold; otherwise `QueueFull` when
the queue length equals `max_queue_size`; otherwise `Queued` with position
equal to the queue length before insertion — under the invariant that the
queue never exceeds `max_queue_size`. -/
theorem claim_C8_submit_cases (s : GreenWaitScheduler) (job : DeferredJob)
    (hq : s.queue.length ≤ s.config.maxQueueSize) :
    (s.config.enabled = false → (submit s job).1 = .disabled) ∧
    (s.config.enabled = true → job.priority = .critical →
      (submit s job).1 = .executedImmediately) ∧
    (s.config.enabled = true → job.priority ≠ .critical →
      (∃ i, getRegionIntensity s job.region.id = some i ∧
        i ≤ job.carbonThreshold) →
      (submit s job).1 = .executedImmediately) ∧
    (s.config.enabled = true → job.priority ≠ .critical →
      (∀ i, getRegionIntensity s job.region.id = some i →
        ¬ i ≤ job.carbonThreshold) →
      s.queue.length = s.config.maxQueueSize →
      (submit s job).1 = .queueFull) ∧
    (s.config.enabled = true → job.priority ≠ .critical →
      (∀ i, getRegionIntensity s job.region.id = some i →
        ¬ i ≤ job.carbonThreshold) →
      s.queue.length ≠ s.config.maxQueueSize →
      (submit s job).1 = .queued s.queue.length) := by
  refine ⟨?_, ?_, ?_, ?_, ?_⟩
  · intro he
    simp [submit, he]
  · intro he hc
    simp [submit, he, hc]
  · rintro he hc ⟨i, hi, hle⟩
    simp [submit, he, hc, hi, hle]
  · intro he hc hni hfull
    rcases hI : getRegionIntensity s job.region.id with _ | i
    · simp [submit, submitToQueue, he, hc, hI, hfull]
    · have hgt := hni i hI
      simp [submit, submitToQueue, he, hc, hI, hgt, hfull]
  · intro he hc hni hne
    have hlt : ¬ s.queue.length ≥ s.config.maxQueueSize := by omega
    rcases hI : getRegionIntensity s job.region.id with _ | i
    · simp [submit, submitToQueue, he, hc, hI, hlt]
    · have hgt := hni i hI
      simp [submit, submitToQueue, he, hc, hI, hgt, hlt]

/-- C8 witness: on an enabled scheduler with an empty queue of capacity 2
and no cached intensity, a normal-priority job is queued at position 0. -/
theorem claim_C8_submit_cases_witness :
    (submit Toy.gwState Toy.gwJob).1 = .queued 0 :=
  (claim_C8_submit_cases Toy.gwState Toy.gwJob (by decide)).2.2.2.2
    (by decide) (by decide)
    (fun i hi => by simp [getRegionIntensity, Toy.gwState] at hi)
    (by decide)
